import Mathlib

/-!
Verification of the orchestration script of the TENT rotation-evaluation
harness (file mnistr.py). The definitions below are a shallow embedding of
that script: the rotation-augmented MNIST loader, the checkpoint key
rewrite, the adaptation-strategy selector, the optimizer factory and the
angle-sweep evaluation driver. Tensors are modelled as lists of rationals,
images abstractly as pixel lists, and the framework pieces that the script
merely calls into (ToTensor, the geometric rotation kernel, the wrapped
adaptation models) are abstract function parameters.
-/

set_option maxRecDepth 100000

namespace Mnistr

/-! ## Rotation-augmented loader (mnistr.py, RotationTransform and load_cifar_r) -/

/-- The fixed normalization mean 0.1307 from transforms.Normalize((0.1307,), (0.3081,)). -/
def mnistMean : ℚ := 1307 / 10000

/-- The fixed normalization std 0.3081 from transforms.Normalize((0.1307,), (0.3081,)). -/
def mnistStd : ℚ := 3081 / 10000

/-- transforms.Normalize((0.1307,), (0.3081,)) applied pixelwise to a tensor. -/
def mnistNormalize (img : List ℚ) : List ℚ :=
  img.map (fun v => (v - mnistMean) / mnistStd)

/-- torchvision transforms.Compose: apply the listed transforms in order. -/
def composeTransforms (ts : List (α → α)) (x : α) : α :=
  ts.foldl (fun v t => t v) x

/-- RotationTransform(angle).__call__, i.e. TF.rotate(x, angle) with the
rotation kernel left abstract. -/
def RotationTransform (rotate : ℚ → List ℚ → List ℚ) (angle : ℚ) :
    List ℚ → List ℚ :=
  rotate angle

/-- The transform list built in load_cifar_r:
[ToTensor(), Normalize((0.1307,), (0.3081,)), RotationTransform(angle=rotation)]. -/
def mnistrTransforms (toTensor : List ℚ → List ℚ)
    (rotate : ℚ → List ℚ → List ℚ) (angle : ℚ) : List (List ℚ → List ℚ) :=
  [toTensor, mnistNormalize, RotationTransform rotate angle]

/-- Fuel-driven splitting of a list into consecutive batches of size bs
(the batching of torch DataLoader with shuffle=False). -/
def toChunksGo (bs : Nat) : Nat → List α → List (List α)
  | _, [] => []
  | 0, l => [l]
  | Nat.succ n, l => l.take bs :: toChunksGo bs n (l.drop bs)

/-- Split a list into consecutive batches of size bs (last batch may be short). -/
def toChunks (bs : Nat) (l : List α) : List (List α) :=
  toChunksGo bs l.length l

/-- DataLoader ordering: with shuffle=True an (RNG-dependent) permutation would
be applied; with shuffle=False the dataset order is used as is. -/
def dataLoaderOrder (shuffle : Bool) (perm : List α → List α) (data : List α) :
    List α :=
  if shuffle then perm data else data

/-- The accumulation loop of load_cifar_r: for i, (x, y) in enumerate(loader),
append both batch components, and break after appending batch i once
n_examples is set and batch_size * i >= n_examples. -/
def accumBatches (bs : Nat) (cap : Option Nat) :
    List (List (α × β)) → Nat → List α × List β
  | [], _ => ([], [])
  | c :: rest, i =>
    match cap with
    | none =>
      let r := accumBatches bs none rest (i + 1)
      (c.map Prod.fst ++ r.1, c.map Prod.snd ++ r.2)
    | some m =>
      if bs * i ≥ m then (c.map Prod.fst, c.map Prod.snd)
      else
        let r := accumBatches bs (some m) rest (i + 1)
        (c.map Prod.fst ++ r.1, c.map Prod.snd ++ r.2)

/-- load_cifar_r(rotation, n_examples): build the Compose transform, apply it
per example of the fixed test split, batch with batch_size=100 and
shuffle=False, accumulate batches with the break-after-append cap policy,
concatenate, and truncate both components to n_examples when set.
The raw test split, ToTensor and the rotation kernel are parameters. -/
def load_cifar_r (rotation : ℚ) (n_examples : Option Nat)
    (testSet : List (List ℚ × Nat))
    (toTensor : List ℚ → List ℚ) (rotate : ℚ → List ℚ → List ℚ)
    (perm : List (List ℚ × Nat) → List (List ℚ × Nat)) :
    List (List ℚ) × List Nat :=
  let transform := composeTransforms (mnistrTransforms toTensor rotate rotation)
  let dataset := testSet.map (fun p => (transform p.1, p.2))
  let batch_size := 100
  let ordered := dataLoaderOrder false perm dataset
  let chunks := toChunks batch_size ordered
  let acc := accumBatches batch_size n_examples chunks 0
  match n_examples with
  | none => acc
  | some m => (acc.1.take m, acc.2.take m)

/-! ## Checkpoint key rewrite (mnistr.py lines 69-71) -/

/-- The distributed-training wrapper marker removed from checkpoint keys. -/
def wrapperPat : List Char := String.toList "module."

/-- Whether the first list is an initial segment of the second. -/
def leadsWith : List Char → List Char → Bool
  | [], _ => true
  | _ :: _, [] => false
  | p :: ps, c :: cs => p == c && leadsWith ps cs

/-- Fuel-driven core of Python str.replace(pat, replacement-empty): scan left to
right, and on a match remove the seven matched characters and continue after
them (non-overlapping occurrences). Fuel equal to the length suffices. -/
def stripAux : Nat → List Char → List Char
  | _, [] => []
  | 0, l => l
  | Nat.succ n, c :: cs =>
    if leadsWith wrapperPat (c :: cs) then stripAux n (cs.drop 6)
    else c :: stripAux n cs

/-- key.replace("module.", ""): remove every occurrence of the wrapper marker. -/
def key_rewrite (key : String) : String :=
  String.mk (stripAux key.toList.length key.toList)

/-- Whether the wrapper marker occurs anywhere in the character list. -/
def hasPat : List Char → Bool
  | [] => false
  | c :: cs => leadsWith wrapperPat (c :: cs) || hasPat cs

/-! ## Optimizer factory (mnistr.py, setup_optimizer) -/

/-- The optimizer hyperparameters read from cfg.OPTIM. -/
structure OptimConfig where
  METHOD : String
  LR : ℚ
  BETA : ℚ
  WD : ℚ
  MOMENTUM : ℚ
  DAMPENING : ℚ
  NESTEROV : Bool

/-- The two optimizers the factory can build, with the exact constructor
arguments passed in setup_optimizer. -/
inductive Optimizer (P : Type) where
  | Adam (params : P) (lr : ℚ) (beta1 beta2 : ℚ) (weight_decay : ℚ)
  | SGD (params : P) (lr momentum dampening weight_decay : ℚ) (nesterov : Bool)
deriving DecidableEq

/-- The failure raised by the factory's else branch. -/
inductive OptimError where
  | notImplemented
deriving DecidableEq

/-- setup_optimizer(params): Adam with betas=(cfg.OPTIM.BETA, 0.999) when
cfg.OPTIM.METHOD is Adam, SGD with momentum/dampening/weight decay/nesterov
when it is SGD, and raise NotImplementedError otherwise. -/
def setup_optimizer (c : OptimConfig) (params : P) :
    Except OptimError (Optimizer P) :=
  if c.METHOD = "Adam" then
    Except.ok (Optimizer.Adam params c.LR c.BETA (999 / 1000) c.WD)
  else if c.METHOD = "SGD" then
    Except.ok (Optimizer.SGD params c.LR c.MOMENTUM c.DAMPENING c.WD c.NESTEROV)
  else Except.error OptimError.notImplemented

/-! ## Evaluation driver (mnistr.py, evaluate) -/

/-- A wrapped adaptation model: reset either produces a new adaptation state or
raises (modelled as none, for wrappers without reset support), and running the
model on one rotation angle's batch updates the adaptation state and returns
the accuracy computed by clean_accuracy. -/
structure Wrapped (σ : Type) where
  reset : σ → Option σ
  run : Nat → σ → σ × ℚ

/-- Observable events of one driver run. -/
inductive Event where
  | resetDone : Event
  | warnNotReset : Event
  | load : Nat → Option Nat → Event
  | logErr : Nat → ℚ → Event
  | crashUnbound : Event
deriving DecidableEq

/-- Python range(start, stop, step) for a positive step. -/
def pyRange (start stop step : Nat) : List Nat :=
  (List.range ((stop - start + step - 1) / step)).map (fun i => start + step * i)

/-- The three independent adaptation-mode conditionals of evaluate: model is
bound only by a branch whose guard matches; there is no else branch, so an
unknown mode leaves model unbound (none). -/
def selectModel (adaptation : String) (srcM nrmM tntM : Wrapped σ) :
    Option (Wrapped σ) :=
  let m1 := if adaptation = "source" then some srcM else none
  let m2 := if adaptation = "norm" then some nrmM else m1
  let m3 := if adaptation = "tent" then some tntM else m2
  m3

/-- The reset phase of one angle iteration: skipped when cfg.MODEL.EVOLVE is
set; otherwise model.reset() is tried, any exception (including the unbound
model of an unknown adaptation mode) is caught by the bare except and logged
as the not-resetting warning. -/
def resetPhase (evolve : Bool) (model : Option (Wrapped σ)) (st : σ) :
    σ × List Event :=
  if evolve then (st, [])
  else
    match model with
    | none => (st, [Event.warnNotReset])
    | some M =>
      match M.reset st with
      | some s => (s, [Event.resetDone])
      | none => (st, [Event.warnNotReset])

/-- One iteration of the angle loop: reset phase, uncapped load_cifar_r(angle,
None), then the accuracy call. The accuracy call mentions model outside any
try block, so an unbound model raises there uncaught (final Bool flag);
otherwise error = 1 - accuracy is logged. -/
def angleStep (evolve : Bool) (model : Option (Wrapped σ)) (st : σ)
    (angle : Nat) : σ × List Event × Bool :=
  let r := resetPhase evolve model st
  match model with
  | none => (r.1, r.2 ++ [Event.load angle none, Event.crashUnbound], true)
  | some M =>
    let q := M.run angle r.1
    (q.1, r.2 ++ [Event.load angle none, Event.logErr angle (1 - q.2)], false)

/-- The angle loop: run the iterations in order, abort the whole sweep when an
iteration raises uncaught. -/
def sweep (evolve : Bool) (model : Option (Wrapped σ)) :
    List Nat → σ → σ × List Event
  | [], st => (st, [])
  | a :: rest, st =>
    let r := angleStep evolve model st a
    if r.2.2 then (r.1, r.2.1)
    else
      let q := sweep evolve model rest r.1
      (q.1, r.2.1 ++ q.2)

/-- The body of evaluate after the checkpoint load: select the adaptation
wrapper with the three independent conditionals, then sweep the rotation
angles range(0, 181, 10). -/
def evaluate (adaptation : String) (evolve : Bool)
    (srcM nrmM tntM : Wrapped σ) (st0 : σ) : σ × List Event :=
  sweep evolve (selectModel adaptation srcM nrmM tntM) (pyRange 0 181 10) st0

/-- The adaptation state reached by running the angles in order with no reset
in between. -/
def runOnly (M : Wrapped σ) : List Nat → σ → σ
  | [], st => st
  | a :: rest, st => runOnly M rest (M.run a st).1

/-- Event shapes with the state-dependent payloads erased. -/
inductive Tag where
  | attempt : Tag
  | loadT : Nat → Option Nat → Tag
  | logged : Nat → Tag
  | crashed : Tag
deriving DecidableEq

/-- Erase an event to its shape; both reset outcomes count as one attempted
reset call. -/
def tagOf : Event → Tag
  | .resetDone => .attempt
  | .warnNotReset => .attempt
  | .load a c => .loadT a c
  | .logErr a _ => .logged a
  | .crashUnbound => .crashed

/-- Extract a logged (angle, error) pair. -/
def loggedOf : Event → Option (Nat × ℚ)
  | .logErr a e => some (a, e)
  | _ => none

/-- Extract a load call's (angle, cap) arguments. -/
def loadOf : Event → Option (Nat × Option Nat)
  | .load a c => some (a, c)
  | _ => none

/-- Whether an event is the not-resetting warning. -/
def isWarn : Event → Bool
  | .warnNotReset => true
  | _ => false

/-- Batch-size discipline of a chunked list: every chunk with a successor has
exactly bs elements (only the final chunk may be short). -/
def chunksWF (bs : Nat) : List (List α) → Bool
  | [] => true
  | c :: rest => (rest.isEmpty || (c.length == bs)) && chunksWF bs rest

/-- A trivial wrapped model on the unit state, used to instantiate driver
facts on concrete inputs. -/
def dummyWrapped : Wrapped Unit := ⟨fun _ => some (), fun _ _ => ((), 1)⟩

/-- A wrapped model whose reset always raises, on the unit state. -/
def noResetWrapped : Wrapped Unit := ⟨fun _ => none, fun _ _ => ((), 3 / 4)⟩

/-! ## Lemmas about the key rewrite -/

theorem stripAux_of_noPat : ∀ (n : Nat) (s : List Char), hasPat s = false → stripAux n s = s := by
  intro n
  induction n with
  | zero =>
    intro s _
    cases s <;> simp [stripAux]
  | succ k ih =>
    intro s h
    cases s with
    | nil => simp [stripAux]
    | cons c cs =>
      have h' : leadsWith wrapperPat (c :: cs) = false ∧ hasPat cs = false := by
        simpa [hasPat] using h
      simp [stripAux, h'.1, ih cs h'.2]

theorem key_rewrite_id_of_noPat (key : String) (h : hasPat key.toList = false) :
    key_rewrite key = key := by
  unfold key_rewrite
  rw [stripAux_of_noPat _ _ h]
  rfl

/-- C2 (counterexample): the removal of the wrapper marker is not idempotent:
on the key momodule.dule.x one pass produces module.x and a second pass
produces x, so applying the rewrite twice differs from applying it once. -/
theorem key_rewrite_not_idem_cex :
    key_rewrite (key_rewrite (String.mk ['m', 'o', 'm', 'o', 'd', 'u', 'l', 'e', '.', 'd', 'u', 'l', 'e', '.', 'x']))
      ≠ key_rewrite (String.mk ['m', 'o', 'm', 'o', 'd', 'u', 'l', 'e', '.', 'd', 'u', 'l', 'e', '.', 'x']) := by
  decide

/-- C2 (amended): the checkpoint key rewrite (removal of every occurrence of
the distributed-training wrapper marker) is idempotent on every key whose
rewritten form no longer contains the marker — in particular on ordinary
wrapped parameter names; keys where removing occurrences splices a fresh
occurrence together are rewritten further by a second pass. -/
theorem key_rewrite_idem_of_clean (key : String)
    (h : hasPat (key_rewrite key).toList = false) :
    key_rewrite (key_rewrite key) = key_rewrite key :=
  key_rewrite_id_of_noPat _ h

theorem key_rewrite_idem_of_clean_w :
    hasPat (key_rewrite (String.mk ['m', 'o', 'd', 'u', 'l', 'e', '.', 'f', 'c', '1'])).toList = false
  ∧ key_rewrite (key_rewrite (String.mk ['m', 'o', 'd', 'u', 'l', 'e', '.', 'f', 'c', '1']))
      = key_rewrite (String.mk ['m', 'o', 'd', 'u', 'l', 'e', '.', 'f', 'c', '1']) :=
  ⟨by decide, key_rewrite_idem_of_clean _ (by decide)⟩

/-! ## The optimizer factory -/

/-- C6: setup_optimizer builds Adam from the configured learning rate,
first-moment decay BETA with second-moment decay fixed at 0.999 and weight
decay when OPTIM.METHOD is Adam; builds SGD from the configured learning
rate, momentum, dampening, weight decay and Nesterov flag when it is SGD;
and for every other method fails with the NotImplementedError condition,
with no silent default. -/
theorem setup_optimizer_spec (P : Type) (c : OptimConfig) (params : P) :
    (c.METHOD = "Adam" →
      setup_optimizer c params
        = Except.ok (Optimizer.Adam params c.LR c.BETA (999 / 1000) c.WD))
  ∧ (c.METHOD = "SGD" →
      setup_optimizer c params
        = Except.ok (Optimizer.SGD params c.LR c.MOMENTUM c.DAMPENING c.WD c.NESTEROV))
  ∧ (c.METHOD ≠ "Adam" → c.METHOD ≠ "SGD" →
      setup_optimizer c params = Except.error OptimError.notImplemented) := by
  refine ⟨fun h => ?_, fun h => ?_, fun h1 h2 => ?_⟩
  · simp [setup_optimizer, h]
  · simp [setup_optimizer, h]
  · simp [setup_optimizer, h1, h2]

theorem setup_optimizer_spec_w :
    (("AdaGrad" : String) ≠ "Adam") ∧ (("AdaGrad" : String) ≠ "SGD")
  ∧ setup_optimizer ⟨"AdaGrad", 1, 2, 3, 4, 5, true⟩ (0 : Nat)
      = Except.error OptimError.notImplemented :=
  ⟨by decide, by decide,
    (setup_optimizer_spec Nat ⟨"AdaGrad", 1, 2, 3, 4, 5, true⟩ 0).2.2 (by decide) (by decide)⟩

/-! ## Lemmas about the angle-sweep driver -/

theorem resetPhase_evolve (model : Option (Wrapped σ)) (st : σ) :
    resetPhase true model st = (st, []) := rfl

theorem resetPhase_reset_fails (M : Wrapped σ) (st : σ) (h : M.reset st = none) :
    resetPhase false (some M) st = (st, [Event.warnNotReset]) := by
  simp [resetPhase, h]

theorem resetPhase_tags (evolve : Bool) (M : Wrapped σ) (st : σ) :
    ((resetPhase evolve (some M) st).2).map tagOf
      = if evolve then [] else [Tag.attempt] := by
  cases evolve with
  | true => rfl
  | false =>
    simp only [resetPhase, Bool.false_eq_true, if_false]
    cases M.reset st <;> simp [tagOf]

theorem resetPhase_no_load (evolve : Bool) (M : Wrapped σ) (st : σ) :
    ((resetPhase evolve (some M) st).2).filterMap loadOf = [] := by
  cases evolve with
  | true => rfl
  | false =>
    simp only [resetPhase, Bool.false_eq_true, if_false]
    cases M.reset st <;> simp [loadOf]

theorem resetPhase_no_logged (evolve : Bool) (M : Wrapped σ) (st : σ) :
    ((resetPhase evolve (some M) st).2).filterMap loggedOf = [] := by
  cases evolve with
  | true => rfl
  | false =>
    simp only [resetPhase, Bool.false_eq_true, if_false]
    cases M.reset st <;> simp [loggedOf]

theorem sweep_some_cons (evolve : Bool) (M : Wrapped σ) (a : Nat)
    (rest : List Nat) (st : σ) :
    sweep evolve (some M) (a :: rest) st
      = ((sweep evolve (some M) rest (M.run a (resetPhase evolve (some M) st).1).1).1,
         ((resetPhase evolve (some M) st).2
            ++ [Event.load a none,
                Event.logErr a (1 - (M.run a (resetPhase evolve (some M) st).1).2)])
           ++ (sweep evolve (some M) rest (M.run a (resetPhase evolve (some M) st).1).1).2) := by
  simp [sweep, angleStep]

theorem sweep_loads (evolve : Bool) (M : Wrapped σ) :
    ∀ (as : List Nat) (st : σ),
      ((sweep evolve (some M) as st).2).filterMap loadOf
        = as.map (fun a => (a, (none : Option Nat))) := by
  intro as
  induction as with
  | nil => intro st; rfl
  | cons a rest ih =>
    intro st
    rw [sweep_some_cons]
    simp [List.filterMap_append, resetPhase_no_load, loadOf, ih]

theorem sweep_logged (evolve : Bool) (M : Wrapped σ) :
    ∀ (as : List Nat) (st : σ),
      (((sweep evolve (some M) as st).2).filterMap loggedOf).map Prod.fst = as := by
  intro as
  induction as with
  | nil => intro st; rfl
  | cons a rest ih =>
    intro st
    rw [sweep_some_cons]
    simp [List.filterMap_append, resetPhase_no_logged, loggedOf, ih]

theorem sweep_logErr_mem (evolve : Bool) (M : Wrapped σ) :
    ∀ (as : List Nat) (st : σ) (a : Nat) (e : ℚ),
      Event.logErr a e ∈ (sweep evolve (some M) as st).2 →
      ∃ s, e = 1 - (M.run a s).2 := by
  intro as
  induction as with
  | nil => intro st a e h; simp [sweep] at h
  | cons a0 rest ih =>
    intro st a e h
    rw [sweep_some_cons] at h
    rcases List.mem_append.mp h with h1 | h2
    · rcases List.mem_append.mp h1 with h3 | h4
      · exfalso
        cases hev : evolve with
        | true => rw [hev] at h3; simp [resetPhase] at h3
        | false =>
          rw [hev] at h3
          simp only [resetPhase, Bool.false_eq_true, if_false] at h3
          cases hr : M.reset st <;> rw [hr] at h3 <;> simp at h3
      · rcases List.mem_cons.mp h4 with h5 | h6
        · cases h5
        · rcases List.mem_cons.mp h6 with h7 | h8
          · cases h7
            exact ⟨(resetPhase evolve (some M) st).1, rfl⟩
          · simp at h8
    · exact ih _ a e h2

theorem sweep_tags (evolve : Bool) (M : Wrapped σ) :
    ∀ (as : List Nat) (st : σ),
      ((sweep evolve (some M) as st).2).map tagOf
        = as.flatMap (fun a =>
            (if evolve then [] else [Tag.attempt]) ++ [Tag.loadT a none, Tag.logged a]) := by
  intro as
  induction as with
  | nil => intro st; rfl
  | cons a rest ih =>
    intro st
    rw [sweep_some_cons]
    simp [List.map_append, resetPhase_tags, tagOf, ih]

theorem sweep_state_evolve (M : Wrapped σ) :
    ∀ (as : List Nat) (st : σ),
      (sweep true (some M) as st).1 = runOnly M as st := by
  intro as
  induction as with
  | nil => intro st; rfl
  | cons a rest ih =>
    intro st
    rw [sweep_some_cons, resetPhase_evolve]
    simpa [runOnly] using ih (M.run a st).1

theorem sweep_state_reset_fails (M : Wrapped σ) (h : ∀ s, M.reset s = none) :
    ∀ (as : List Nat) (st : σ),
      (sweep false (some M) as st).1 = runOnly M as st := by
  intro as
  induction as with
  | nil => intro st; rfl
  | cons a rest ih =>
    intro st
    rw [sweep_some_cons, resetPhase_reset_fails M st (h st)]
    simpa [runOnly] using ih (M.run a st).1

theorem sweep_warn_count (M : Wrapped σ) (h : ∀ s, M.reset s = none) :
    ∀ (as : List Nat) (st : σ),
      ((sweep false (some M) as st).2).countP isWarn = as.length := by
  intro as
  induction as with
  | nil => intro st; rfl
  | cons a rest ih =>
    intro st
    rw [sweep_some_cons, resetPhase_reset_fails M st (h st)]
    simp [List.countP_append, List.countP_cons, isWarn, ih]

theorem pyRange_eval :
    pyRange 0 181 10
      = [0, 10, 20, 30, 40, 50, 60, 70, 80, 90, 100, 110, 120, 130, 140, 150, 160, 170, 180] := by
  decide

/-- C3: the angle loop of evaluate performs exactly one evaluation per
rotation angle, over the angles 0, 10, ..., 180 (19 angles) in increasing
order in a single pass; for each angle it issues one uncapped load of the
rotated evaluation set and logs one (angle, error) pair, ordered by angle,
where the logged error is 1 - accuracy returned by the wrapped model. -/
theorem sweep_angle_spec (evolve : Bool) (M : Wrapped σ) (st0 : σ) :
    pyRange 0 181 10
      = [0, 10, 20, 30, 40, 50, 60, 70, 80, 90, 100, 110, 120, 130, 140, 150, 160, 170, 180]
  ∧ (pyRange 0 181 10).length = 19
  ∧ ((sweep evolve (some M) (pyRange 0 181 10) st0).2).filterMap loadOf
      = (pyRange 0 181 10).map (fun a => (a, (none : Option Nat)))
  ∧ (((sweep evolve (some M) (pyRange 0 181 10) st0).2).filterMap loggedOf).map Prod.fst
      = pyRange 0 181 10
  ∧ ∀ (a : Nat) (e : ℚ),
      Event.logErr a e ∈ (sweep evolve (some M) (pyRange 0 181 10) st0).2 →
      ∃ s, e = 1 - (M.run a s).2 :=
  ⟨by decide, by decide, sweep_loads evolve M _ st0, sweep_logged evolve M _ st0,
   fun a e h => sweep_logErr_mem evolve M _ st0 a e h⟩

theorem sweep_angle_spec_w :
    Event.logErr 0 (1 - 1 : ℚ) ∈ (sweep true (some dummyWrapped) (pyRange 0 181 10) ()).2
  ∧ ∃ s : Unit, (1 - 1 : ℚ) = 1 - (dummyWrapped.run 0 s).2 := by
  have hmem :
      Event.logErr 0 (1 - 1 : ℚ) ∈ (sweep true (some dummyWrapped) (pyRange 0 181 10) ()).2 := by
    rw [pyRange_eval]
    simp [sweep, angleStep, resetPhase, dummyWrapped]
  exact ⟨hmem, (sweep_angle_spec true dummyWrapped ()).2.2.2.2 0 (1 - 1) hmem⟩

/-- C4: per angle iteration the driver attempts a model reset exactly when
cfg.MODEL.EVOLVE is false: the event trace consists, per angle, of an
optional reset attempt (present iff EVOLVE is false) followed by the load
and the error log; with EVOLVE true no reset is attempted on any of the 19
iterations and the adaptation state threads through the runs only. -/
theorem sweep_reset_iff_evolve_off (evolve : Bool) (M : Wrapped σ) (st0 : σ) :
    ((sweep evolve (some M) (pyRange 0 181 10) st0).2).map tagOf
      = (pyRange 0 181 10).flatMap (fun a =>
          (if evolve then [] else [Tag.attempt]) ++ [Tag.loadT a none, Tag.logged a])
  ∧ (evolve = true →
      (((sweep evolve (some M) (pyRange 0 181 10) st0).2).map tagOf).countP
          (fun t => t == Tag.attempt) = 0
      ∧ (sweep evolve (some M) (pyRange 0 181 10) st0).1
          = runOnly M (pyRange 0 181 10) st0)
  ∧ (evolve = false →
      (((sweep evolve (some M) (pyRange 0 181 10) st0).2).map tagOf).countP
          (fun t => t == Tag.attempt) = 19) := by
  refine ⟨sweep_tags evolve M _ st0, fun h => ⟨?_, ?_⟩, fun h => ?_⟩
  · subst h
    rw [sweep_tags]
    decide
  · subst h
    exact sweep_state_evolve M _ st0
  · subst h
    rw [sweep_tags]
    decide

theorem sweep_reset_iff_evolve_off_w :
    (((sweep false (some dummyWrapped) (pyRange 0 181 10) ()).2).map tagOf).countP
        (fun t => t == Tag.attempt) = 19 :=
  (sweep_reset_iff_evolve_off false dummyWrapped ()).2.2 rfl

/-- C5: a reset call that raises because the wrapper does not support
resetting is caught locally and downgraded to the not-resetting warning, the
iteration continues with the non-reset state and is not aborted; a model
whose reset always raises still yields the warning on each of the 19
iterations, all 19 error logs, and a final state reached by the runs alone. -/
theorem reset_failure_nonfatal (M : Wrapped σ) (st : σ) (a : Nat) (st0 : σ) :
    (M.reset st = none →
      angleStep false (some M) st a
        = ((M.run a st).1,
           [Event.warnNotReset, Event.load a none,
            Event.logErr a (1 - (M.run a st).2)], false))
  ∧ ((∀ s, M.reset s = none) →
      ((sweep false (some M) (pyRange 0 181 10) st0).2).countP isWarn = 19
      ∧ (((sweep false (some M) (pyRange 0 181 10) st0).2).filterMap loggedOf).map Prod.fst
          = pyRange 0 181 10
      ∧ (sweep false (some M) (pyRange 0 181 10) st0).1
          = runOnly M (pyRange 0 181 10) st0) := by
  constructor
  · intro h
    simp [angleStep, resetPhase_reset_fails M st h]
  · intro h
    refine ⟨?_, sweep_logged false M _ st0, sweep_state_reset_fails M h _ st0⟩
    rw [sweep_warn_count M h]
    decide

theorem reset_failure_nonfatal_w :
    noResetWrapped.reset () = none
  ∧ (∀ s, noResetWrapped.reset s = none)
  ∧ angleStep false (some noResetWrapped) () 0
      = ((noResetWrapped.run 0 ()).1,
         [Event.warnNotReset, Event.load 0 none,
          Event.logErr 0 (1 - (noResetWrapped.run 0 ()).2)], false)
  ∧ ((sweep false (some noResetWrapped) (pyRange 0 181 10) ()).2).countP isWarn = 19
  ∧ (((sweep false (some noResetWrapped) (pyRange 0 181 10) ()).2).filterMap loggedOf).map Prod.fst
      = pyRange 0 181 10
  ∧ (sweep false (some noResetWrapped) (pyRange 0 181 10) ()).1
      = runOnly noResetWrapped (pyRange 0 181 10) () :=
  ⟨rfl, fun _ => rfl,
   (reset_failure_nonfatal noResetWrapped () 0 ()).1 rfl,
   ((reset_failure_nonfatal noResetWrapped () 0 ()).2 (fun _ => rfl)).1,
   ((reset_failure_nonfatal noResetWrapped () 0 ()).2 (fun _ => rfl)).2.1,
   ((reset_failure_nonfatal noResetWrapped () 0 ()).2 (fun _ => rfl)).2.2⟩

/-- C10 (counterexample): with an unknown adaptation mode and EVOLVE false,
the run does not fail at the first use of the unbound model: that first use
is the reset call inside the bare try/except, so it is caught and logged as
the not-resetting warning, and the uncaught unbound-variable failure only
happens at the following accuracy call. -/
theorem unknown_mode_cex :
    (evaluate "abc" false dummyWrapped dummyWrapped dummyWrapped ()).2
      = [Event.warnNotReset, Event.load 0 none, Event.crashUnbound]
  ∧ ((evaluate "abc" false dummyWrapped dummyWrapped dummyWrapped ()).2).head?
      ≠ some Event.crashUnbound := by
  constructor
  · decide
  · decide

/-- C10 (amended): with an adaptation mode outside source/norm/tent no model
is bound, and the run fails with the uncaught unbound-variable error at the
first use of the model that is outside the reset try block — the accuracy
call of angle 0: when EVOLVE is true that call is also the first use overall,
while when EVOLVE is false the earlier unbound use inside the reset try block
is caught and logged as a warning first; in all cases the sweep aborts in the
first iteration, no error is ever logged, and no default strategy is
selected. -/
theorem unknown_mode_crash_spec (evolve : Bool) (srcM nrmM tntM : Wrapped σ)
    (st0 : σ) (mode : String)
    (h1 : mode ≠ "source") (h2 : mode ≠ "norm") (h3 : mode ≠ "tent") :
    selectModel mode srcM nrmM tntM = none
  ∧ (evaluate mode evolve srcM nrmM tntM st0).2
      = (if evolve then [Event.load 0 none, Event.crashUnbound]
         else [Event.warnNotReset, Event.load 0 none, Event.crashUnbound])
  ∧ (evaluate mode evolve srcM nrmM tntM st0).1 = st0
  ∧ ∀ (a : Nat) (e : ℚ),
      Event.logErr a e ∉ (evaluate mode evolve srcM nrmM tntM st0).2 := by
  have hsel : selectModel mode srcM nrmM tntM = none := by
    simp [selectModel, h1, h2, h3]
  have hev : evaluate mode evolve srcM nrmM tntM st0
      = sweep evolve none (pyRange 0 181 10) st0 := by
    rw [evaluate, hsel]
  have hsw : sweep evolve (none : Option (Wrapped σ)) (pyRange 0 181 10) st0
      = (st0, (if evolve then [] else [Event.warnNotReset])
              ++ [Event.load 0 none, Event.crashUnbound]) := by
    rw [pyRange_eval]
    cases evolve <;> simp [sweep, angleStep, resetPhase]
  refine ⟨hsel, ?_, ?_, ?_⟩
  · rw [hev, hsw]
    cases evolve <;> simp
  · rw [hev, hsw]
  · intro a e
    rw [hev, hsw]
    cases evolve <;> simp

theorem unknown_mode_crash_spec_w :
    ("abc" : String) ≠ "source" ∧ ("abc" : String) ≠ "norm" ∧ ("abc" : String) ≠ "tent"
  ∧ (selectModel "abc" dummyWrapped dummyWrapped dummyWrapped = none
     ∧ (evaluate "abc" true dummyWrapped dummyWrapped dummyWrapped ()).2
         = (if true then [Event.load 0 none, Event.crashUnbound]
            else [Event.warnNotReset, Event.load 0 none, Event.crashUnbound])
     ∧ (evaluate "abc" true dummyWrapped dummyWrapped dummyWrapped ()).1 = ()
     ∧ ∀ (a : Nat) (e : ℚ),
         Event.logErr a e ∉ (evaluate "abc" true dummyWrapped dummyWrapped dummyWrapped ()).2) :=
  ⟨by decide, by decide, by decide,
   unknown_mode_crash_spec true dummyWrapped dummyWrapped dummyWrapped () "abc"
     (by decide) (by decide) (by decide)⟩

/-! ## Lemmas about the loader -/

theorem toChunksGo_flatten (bs : Nat) (hbs : 1 ≤ bs) :
    ∀ (n : Nat) (l : List α), l.length ≤ n → (toChunksGo bs n l).flatten = l := by
  intro n
  induction n with
  | zero =>
    intro l h
    have hl : l = [] := List.length_eq_zero.mp (Nat.le_zero.mp h)
    subst hl
    rfl
  | succ k ih =>
    intro l h
    cases l with
    | nil => rfl
    | cons c cs =>
      show (List.take bs (c :: cs) :: toChunksGo bs k (List.drop bs (c :: cs))).flatten = c :: cs
      rw [List.flatten_cons, ih _ ?_, List.take_append_drop]
      rw [List.length_drop]
      simp only [List.length_cons] at h ⊢
      omega

theorem toChunks_flatten (bs : Nat) (hbs : 1 ≤ bs) (l : List α) :
    (toChunks bs l).flatten = l :=
  toChunksGo_flatten bs hbs l.length l le_rfl

theorem toChunksGo_wf (bs : Nat) (hbs : 1 ≤ bs) :
    ∀ (n : Nat) (l : List α), l.length ≤ n → chunksWF bs (toChunksGo bs n l) = true := by
  intro n
  induction n with
  | zero =>
    intro l h
    have hl : l = [] := List.length_eq_zero.mp (Nat.le_zero.mp h)
    subst hl
    rfl
  | succ k ih =>
    intro l h
    cases l with
    | nil => rfl
    | cons c cs =>
      show chunksWF bs (List.take bs (c :: cs) :: toChunksGo bs k (List.drop bs (c :: cs))) = true
      have hlen : (List.drop bs (c :: cs)).length ≤ k := by
        rw [List.length_drop]
        simp only [List.length_cons] at h ⊢
        omega
      have hrec := ih _ hlen
      cases hdrop : List.drop bs (c :: cs) with
      | nil =>
        simp [toChunksGo, chunksWF]
      | cons d ds =>
        have hbslt : bs < (c :: cs).length := by
          have hdl := congrArg List.length hdrop
          rw [List.length_drop] at hdl
          simp only [List.length_cons] at hdl ⊢
          omega
        have htake : (List.take bs (c :: cs)).length = bs := by
          rw [List.length_take]
          omega
        rw [hdrop] at hrec
        simp [chunksWF, htake, hrec]

theorem chunksWF_toChunks (bs : Nat) (hbs : 1 ≤ bs) (l : List α) :
    chunksWF bs (toChunks bs l) = true :=
  toChunksGo_wf bs hbs l.length l le_rfl

theorem accumBatches_none_eq (bs : Nat) :
    ∀ (cs : List (List (α × β))) (i : Nat),
      accumBatches bs none cs i
        = ((cs.flatten).map Prod.fst, (cs.flatten).map Prod.snd) := by
  intro cs
  induction cs with
  | nil => intro i; rfl
  | cons c rest ih =>
    intro i
    simp [accumBatches, ih (i + 1)]

theorem accumBatches_len_eq (bs : Nat) (cap : Option Nat) :
    ∀ (cs : List (List (α × β))) (i : Nat),
      (accumBatches bs cap cs i).1.length = (accumBatches bs cap cs i).2.length := by
  cases cap with
  | none =>
    intro cs i
    rw [accumBatches_none_eq]
    rw [List.length_map, List.length_map]
  | some m =>
    intro cs
    induction cs with
    | nil => intro i; rfl
    | cons c rest ih =>
      intro i
      by_cases h : bs * i ≥ m
      · simp [accumBatches, h]
      · simp [accumBatches, h, ih (i + 1)]

theorem accumBatches_cap_grows (bs m : Nat) :
    ∀ (cs : List (List (α × β))) (i : Nat),
      ∃ t1 t2,
        (accumBatches bs (some m) cs i).1 ++ t1 = (accumBatches bs none cs i).1
      ∧ (accumBatches bs (some m) cs i).2 ++ t2 = (accumBatches bs none cs i).2 := by
  intro cs
  induction cs with
  | nil => intro i; exact ⟨[], [], rfl, rfl⟩
  | cons c rest ih =>
    intro i
    by_cases h : bs * i ≥ m
    · refine ⟨(accumBatches bs none rest (i + 1)).1,
              (accumBatches bs none rest (i + 1)).2, ?_, ?_⟩
      · simp [accumBatches, h]
      · simp [accumBatches, h]
    · obtain ⟨t1, t2, h1, h2⟩ := ih (i + 1)
      refine ⟨t1, t2, ?_, ?_⟩
      · simp [accumBatches, h, List.append_assoc, h1]
      · simp [accumBatches, h, List.append_assoc, h2]

theorem accumBatches_cap_len_ge (bs m : Nat) :
    ∀ (cs : List (List (α × β))) (i : Nat),
      chunksWF bs cs = true →
      min (m - bs * i) (cs.flatten).length ≤ (accumBatches bs (some m) cs i).1.length := by
  intro cs
  induction cs with
  | nil => intro i _; simp
  | cons c rest ih =>
    intro i hwf
    have hw : (rest.isEmpty || (c.length == bs)) = true ∧ chunksWF bs rest = true := by
      simpa [chunksWF, Bool.and_eq_true] using hwf
    by_cases h : bs * i ≥ m
    · have hz : m - bs * i = 0 := by omega
      simp [accumBatches, h, hz]
    · cases rest with
      | nil =>
        simp only [accumBatches, ge_iff_le, h, if_false, List.flatten_cons,
          List.flatten_nil, List.append_nil, List.length_append, List.length_map,
          List.length_nil]
        omega
      | cons d rest2 =>
        have hc : c.length = bs := by
          have hb : (c.length == bs) = true := by simpa using hw.1
          simpa using hb
        have ihh := ih (i + 1) hw.2
        have hmul : bs * (i + 1) = bs * i + bs := by ring
        rw [hmul] at ihh
        simp only [accumBatches, ge_iff_le, h, if_false, List.flatten_cons,
          List.length_append, List.length_map] at ihh ⊢
        omega

theorem take_eq_of_extend (p t q : List γ) (m : Nat) (hpq : p ++ t = q)
    (hlen : min m q.length ≤ p.length) : p.take m = q.take m := by
  by_cases hm : m ≤ p.length
  · rw [← hpq, List.take_append_of_le_length hm]
  · have hq : q.length = p.length + t.length := by
      rw [← hpq, List.length_append]
    have ht : t = [] := by
      have : t.length = 0 := by omega
      exact List.length_eq_zero.mp this
    subst ht
    rw [← hpq, List.append_nil]

theorem accum_cap_take (bs m : Nat) (cs : List (List (α × β)))
    (hwf : chunksWF bs cs = true) :
    ((accumBatches bs (some m) cs 0).1.take m, (accumBatches bs (some m) cs 0).2.take m)
      = ((accumBatches bs none cs 0).1.take m, (accumBatches bs none cs 0).2.take m) := by
  obtain ⟨t1, t2, h1, h2⟩ := accumBatches_cap_grows bs m cs 0
  have hge := accumBatches_cap_len_ge bs m cs 0 hwf
  simp only [Nat.mul_zero, Nat.sub_zero] at hge
  have hge1 : min m (accumBatches bs none cs 0).1.length
      ≤ (accumBatches bs (some m) cs 0).1.length := by
    rw [accumBatches_none_eq]
    simp only [List.length_map]
    exact hge
  have hge2 : min m (accumBatches bs none cs 0).2.length
      ≤ (accumBatches bs (some m) cs 0).2.length := by
    rw [← accumBatches_len_eq bs none cs 0, ← accumBatches_len_eq bs (some m) cs 0]
    exact hge1
  rw [take_eq_of_extend _ t1 _ m h1 hge1, take_eq_of_extend _ t2 _ m h2 hge2]

theorem load_cifar_r_none_eq (rotation : ℚ) (testSet : List (List ℚ × Nat))
    (toTensor : List ℚ → List ℚ) (rotate : ℚ → List ℚ → List ℚ)
    (perm : List (List ℚ × Nat) → List (List ℚ × Nat)) :
    load_cifar_r rotation none testSet toTensor rotate perm
      = (testSet.map (fun p => rotate rotation (mnistNormalize (toTensor p.1))),
         testSet.map Prod.snd) := by
  simp [load_cifar_r, dataLoaderOrder, accumBatches_none_eq,
    toChunks_flatten 100 (by omega), List.map_map, Function.comp,
    composeTransforms, mnistrTransforms, RotationTransform]

theorem load_cap_eq_take (rotation : ℚ) (testSet : List (List ℚ × Nat))
    (toTensor : List ℚ → List ℚ) (rotate : ℚ → List ℚ → List ℚ)
    (perm : List (List ℚ × Nat) → List (List ℚ × Nat)) (m : Nat) :
    load_cifar_r rotation (some m) testSet toTensor rotate perm
      = ((load_cifar_r rotation none testSet toTensor rotate perm).1.take m,
         (load_cifar_r rotation none testSet toTensor rotate perm).2.take m) := by
  have key := accum_cap_take 100 m
    (toChunks 100 (testSet.map (fun p =>
      (composeTransforms (mnistrTransforms toTensor rotate rotation) p.1, p.2))))
    (chunksWF_toChunks 100 (by omega) _)
  simpa [load_cifar_r, dataLoaderOrder] using key

/-- C1: for every rotation and every positive cap m within the split size,
load_cifar_r with a cap returns sequences of length exactly m whose contents
are the first m examples of the uncapped accumulation; the accumulation
itself follows the break-after-append chunk policy (the final conjunct shows
it gathering 200 examples for a cap of 100 over whole 100-example chunks,
not a plain 100-element prefix, before truncation). -/
theorem load_cap_exact (rotation : ℚ) (testSet : List (List ℚ × Nat))
    (toTensor : List ℚ → List ℚ) (rotate : ℚ → List ℚ → List ℚ)
    (perm : List (List ℚ × Nat) → List (List ℚ × Nat)) (m : Nat)
    (_hm : 0 < m) (hle : m ≤ testSet.length) :
    (load_cifar_r rotation (some m) testSet toTensor rotate perm).1.length = m
  ∧ (load_cifar_r rotation (some m) testSet toTensor rotate perm).2.length = m
  ∧ (load_cifar_r rotation (some m) testSet toTensor rotate perm).1
      = (load_cifar_r rotation none testSet toTensor rotate perm).1.take m
  ∧ (load_cifar_r rotation (some m) testSet toTensor rotate perm).2
      = (load_cifar_r rotation none testSet toTensor rotate perm).2.take m
  ∧ (accumBatches 100 (some 100)
       (toChunks 100 ((List.range 300).map (fun k => (k, k)))) 0).1.length = 200 := by
  have ht := load_cap_eq_take rotation testSet toTensor rotate perm m
  have hnone := load_cifar_r_none_eq rotation testSet toTensor rotate perm
  refine ⟨?_, ?_, by rw [ht], by rw [ht], by decide⟩
  · rw [ht, hnone]
    simp only [List.length_take, List.length_map]
    omega
  · rw [ht, hnone]
    simp only [List.length_take, List.length_map]
    omega

theorem load_cap_exact_w :
    0 < 2 ∧ 2 ≤ ([([(0 : ℚ)], 7), ([1], 8), ([2], 9)] : List (List ℚ × Nat)).length
  ∧ ((load_cifar_r 0 (some 2) [([(0 : ℚ)], 7), ([1], 8), ([2], 9)] id (fun _ l => l) id).1.length = 2
     ∧ (load_cifar_r 0 (some 2) [([(0 : ℚ)], 7), ([1], 8), ([2], 9)] id (fun _ l => l) id).2.length = 2
     ∧ (load_cifar_r 0 (some 2) [([(0 : ℚ)], 7), ([1], 8), ([2], 9)] id (fun _ l => l) id).1
         = (load_cifar_r 0 none [([(0 : ℚ)], 7), ([1], 8), ([2], 9)] id (fun _ l => l) id).1.take 2
     ∧ (load_cifar_r 0 (some 2) [([(0 : ℚ)], 7), ([1], 8), ([2], 9)] id (fun _ l => l) id).2
         = (load_cifar_r 0 none [([(0 : ℚ)], 7), ([1], 8), ([2], 9)] id (fun _ l => l) id).2.take 2
     ∧ (accumBatches 100 (some 100)
          (toChunks 100 ((List.range 300).map (fun k => (k, k)))) 0).1.length = 200) :=
  ⟨by decide, by decide,
   load_cap_exact 0 [([(0 : ℚ)], 7), ([1], 8), ([2], 9)] id (fun _ l => l) id 2
     (by decide) (by decide)⟩

/-- C7: the loader's transform applies ToTensor, then the fixed normalization
(mean 0.1307, std 0.3081), then the rotation: every pipeline output equals
rotate(normalize(toTensor(raw))), every image delivered by the uncapped
loader equals rotate(normalize(toTensor(raw))) for its raw example, and
there are transforms for which the opposite order
normalize(rotate(toTensor(raw))) gives a different tensor. -/
theorem transform_order_spec :
    (∀ (toTensor : List ℚ → List ℚ) (rotate : ℚ → List ℚ → List ℚ) (angle : ℚ)
       (x : List ℚ),
       composeTransforms (mnistrTransforms toTensor rotate angle) x
         = rotate angle (mnistNormalize (toTensor x)))
  ∧ (∀ (rotation : ℚ) (testSet : List (List ℚ × Nat)) (toTensor : List ℚ → List ℚ)
       (rotate : ℚ → List ℚ → List ℚ) (perm : List (List ℚ × Nat) → List (List ℚ × Nat)),
       (load_cifar_r rotation none testSet toTensor rotate perm).1
         = testSet.map (fun p => rotate rotation (mnistNormalize (toTensor p.1))))
  ∧ ∃ (toTensor : List ℚ → List ℚ) (rotate : ℚ → List ℚ → List ℚ) (angle : ℚ)
      (x : List ℚ),
      composeTransforms (mnistrTransforms toTensor rotate angle) x
        ≠ mnistNormalize (rotate angle (toTensor x)) := by
  refine ⟨fun _ _ _ _ => rfl, fun rotation testSet toTensor rotate perm => ?_, ?_⟩
  · rw [load_cifar_r_none_eq]
  · refine ⟨id, fun _ l => l.map (fun _ => 0), 0, [0], ?_⟩
    simp [composeTransforms, mnistrTransforms, RotationTransform, mnistNormalize,
      mnistMean, mnistStd]
    norm_num

/-- C8: the loader consumes the test split with shuffle disabled and no
nondeterministic sampling: its output does not depend on the ambient RNG
permutation at all, so two successive calls with identical arguments (under
any two RNG states) return identical tensors. -/
theorem load_rng_independent (rotation : ℚ) (cap : Option Nat)
    (testSet : List (List ℚ × Nat)) (toTensor : List ℚ → List ℚ)
    (rotate : ℚ → List ℚ → List ℚ) :
    ∀ (perm1 perm2 : List (List ℚ × Nat) → List (List ℚ × Nat)),
      load_cifar_r rotation cap testSet toTensor rotate perm1
        = load_cifar_r rotation cap testSet toTensor rotate perm2 :=
  fun _ _ => rfl

/-- C9: the input and label sequences returned by load_cifar_r always have
equal length, and a cap truncates both components the same way: the capped
result is the componentwise m-prefix of the uncapped result. -/
theorem load_xy_aligned (rotation : ℚ) (cap : Option Nat)
    (testSet : List (List ℚ × Nat)) (toTensor : List ℚ → List ℚ)
    (rotate : ℚ → List ℚ → List ℚ)
    (perm : List (List ℚ × Nat) → List (List ℚ × Nat)) :
    (load_cifar_r rotation cap testSet toTensor rotate perm).1.length
      = (load_cifar_r rotation cap testSet toTensor rotate perm).2.length
  ∧ ∀ m : Nat,
      load_cifar_r rotation (some m) testSet toTensor rotate perm
        = ((load_cifar_r rotation none testSet toTensor rotate perm).1.take m,
           (load_cifar_r rotation none testSet toTensor rotate perm).2.take m) := by
  constructor
  · cases cap with
    | none =>
      rw [load_cifar_r_none_eq]
      simp only [List.length_map]
    | some m =>
      rw [load_cap_eq_take, load_cifar_r_none_eq]
      simp only [List.length_take, List.length_map]
  · intro m
    exact load_cap_eq_take rotation testSet toTensor rotate perm m

end Mnistr
